import Mathlib

/-!
Shallow embedding of the chapter-timeline derivation core of `audiobook-tools`
(`src/audiobook_tools/core/cue.py` and `src/audiobook_tools/core/processor.py`),
together with reference ("spec-side") descriptions of the algorithms, and the
theorems relating them.

Modelling conventions:
* Python `float` seconds are modelled as `ℚ` (all values arising here are exact
  rationals; `round` is modelled by `pyRound`, Python's round-half-to-even).
* Python exceptions are modelled by `Except PyError`; `PyError.attributeError`
  stands for the untyped `AttributeError` raised when `re.search(...)` returns
  `None` and `.group(...)` is called on it.
* The specific regular expressions of the source are embedded as deterministic
  scanners (`reSearch...`, `cdOrdinal`, `chapterPhrase`); for these patterns
  greedy scanning agrees with Python's leftmost-match backtracking semantics,
  because no pattern element can backtrack into another (digits are never
  whitespace, captured characters are never quotes, and end anchors are
  position-forced).
* Python's `\d` and `int` also accept non-ASCII Unicode decimal digits; the
  embedding's digit class is ASCII `[0-9]`, which coincides with `\d` on
  ASCII strings, and statements that characterize acceptance over arbitrary
  input are therefore stated for ASCII strings.  `re.match`'s `$` matching
  just before one final newline is modelled explicitly in `timeToSeconds`.
* The external `ffprobe`/`ffmpeg` duration probes are oracles (`dur`
  parameters), exactly as the spec treats them.
-/

namespace AudiobookTools

/-- Python exceptions raised by the modelled code.  `invalidCueFormat`
mirrors `InvalidCueFormatError` (a subclass of `CueProcessingError`),
`cueProcessingError` the base class raised directly, and `attributeError`
the untyped `AttributeError` from dereferencing a failed regex match. -/
inductive PyError where
  | invalidCueFormat (msg : String)
  | cueProcessingError (msg : String)
  | audioFileError (msg : String)
  | attributeError
  deriving DecidableEq

deriving instance DecidableEq for Except

/-- Numeric value of a digit character. -/
def digitVal (c : Char) : ℕ := c.toNat - 48

/-- The character of a single decimal digit. -/
def digitChar (n : ℕ) : Char := Char.ofNat (48 + n)

/-- Numeric value of a digit run, as Python's `int` on a decimal string. -/
def natOfDigits (l : List Char) : ℕ := l.foldl (fun a c => 10 * a + digitVal c) 0

/-- Python's `f"{n:02d}"` on an `int`: zero-pad to width 2 (signs included
verbatim for negative numbers, exactly as Python formats them). -/
def pad2i (n : ℤ) : String := if 0 ≤ n ∧ n < 10 then "0" ++ toString n else toString n

/-- `f"{n:02d}"` on a nonnegative count. -/
def pad2Nat (n : ℕ) : String := pad2i (n : ℤ)

/-- The canonical `MM:SS:FF` string of a field triple (each field < 100). -/
def timeStr2 (m s f : ℕ) : String := pad2Nat m ++ ":" ++ pad2Nat s ++ ":" ++ pad2Nat f

/-- `CueProcessor.time_to_seconds` (core/cue.py:59-82): the input must match
`re.match(r"^\d{2}:\d{2}:\d{2}$", ...)`, seconds must be < 60 and frames
must be < 75; the result is `minutes*60 + seconds + frames/75`.  Python's
`$` also matches just before one final `'\n'`, so the pattern accepts a
string with exactly one trailing newline as well; `int` (applied to the
`split(":")` parts) ignores that trailing whitespace, so the field values
are the same with or without it — modelled by dropping one trailing `'\n'`
before matching.  Python's `\d` and `int` additionally accept non-ASCII
Unicode decimal digits; the model's digit class is ASCII `[0-9]`
(`Char.isDigit`), which coincides with `\d` on ASCII strings (the fragment
over which the C9 characterization below is stated). -/
def timeToSeconds (s : String) : Except PyError ℚ :=
  let body := if s.data.getLast? = some '\n' then s.data.dropLast else s.data
  match body with
  | [m1, m2, c1, s1, s2, c2, f1, f2] =>
    if m1.isDigit && m2.isDigit && (c1 == ':') && s1.isDigit && s2.isDigit &&
        (c2 == ':') && f1.isDigit && f2.isDigit then
      let mv := 10 * digitVal m1 + digitVal m2
      let sv := 10 * digitVal s1 + digitVal s2
      let fv := 10 * digitVal f1 + digitVal f2
      if 60 ≤ sv ∨ 75 ≤ fv then
        Except.error (.invalidCueFormat ("Invalid time values in: " ++ s))
      else
        Except.ok ((mv : ℚ) * 60 + (sv : ℚ) + (fv : ℚ) / 75)
    else Except.error (.invalidCueFormat ("Invalid time format: " ++ s))
  | _ => Except.error (.invalidCueFormat ("Invalid time format: " ++ s))

/-- Python's built-in `round` on an exact value: round half to even. -/
def pyRound (q : ℚ) : ℤ :=
  if q - (⌊q⌋ : ℚ) < 1 / 2 then ⌊q⌋
  else if (1 : ℚ) / 2 < q - (⌊q⌋ : ℚ) then ⌊q⌋ + 1
  else if ⌊q⌋ % 2 = 0 then ⌊q⌋ else ⌊q⌋ + 1

/-- `CueProcessor.seconds_to_time` (core/cue.py:84-99): round to total frames,
then decompose with `//` and `%` (floor division, `Int.fdiv`/`Int.fmod`). -/
def secondsToTime (q : ℚ) : String :=
  let totalFrames := pyRound (q * 75)
  let minutes := totalFrames.fdiv 4500
  let remaining := totalFrames.fmod 4500
  let secs := remaining.fdiv 75
  let frames := remaining.fmod 75
  pad2i minutes ++ ":" ++ pad2i secs ++ ":" ++ pad2i frames

/-! ### Regex scanners used by the CUE parser -/

/-- Python `\s` (also the character class trimmed by `str.strip`). -/
def pyIsSpace (c : Char) : Bool :=
  c == ' ' || c == '\t' || c == '\n' || c == '\r' || c.toNat == 11 || c.toNat == 12

/-- Python `str.strip()`. -/
def pyStrip (s : String) : String :=
  String.mk (((s.data.dropWhile pyIsSpace).reverse.dropWhile pyIsSpace).reverse)

/-- Python `str.startswith`. -/
def pyStartsWith (s pre : String) : Bool := pre.data.isPrefixOf s.data

/-- Match a literal string prefix, returning the rest. -/
def matchLiteral : List Char → List Char → Option (List Char)
  | [], rest => some rest
  | _ :: _, [] => none
  | k :: ks, c :: cs => if c == k then matchLiteral ks cs else none

/-- Match `\s+`, returning the rest. -/
def matchWs1 : List Char → Option (List Char)
  | [] => none
  | c :: cs => if pyIsSpace c then some (cs.dropWhile pyIsSpace) else none

/-- Match `(\d+)` (greedy), returning the digit run and the rest. -/
def matchDigits1 (l : List Char) : Option (List Char × List Char) :=
  let ds := l.takeWhile Char.isDigit
  if ds.isEmpty then none else some (ds, l.drop ds.length)

/-- Match `"([^"]+)"`, returning the capture and the rest. -/
def matchQuoted : List Char → Option (List Char × List Char)
  | '"' :: cs =>
    let cap := cs.takeWhile (fun c => !(c == '"'))
    if cap.isEmpty then none
    else
      match cs.drop cap.length with
      | '"' :: rest => some (cap, rest)
      | _ => none
  | _ => none

/-- `re.search`: try the matcher at every start position, leftmost wins. -/
def searchAux {α : Type} (m : List Char → Option α) : List Char → Option α
  | [] => m []
  | c :: cs =>
    match m (c :: cs) with
    | some r => some r
    | none => searchAux m cs

/-- `re.search(KEYWORD + r'\s+"([^"]+)"', s).group(1)` for the `FILE`,
`TITLE` and `PERFORMER` directives. -/
def reSearchQuoted (kw : String) (s : String) : Option String :=
  searchAux
    (fun l => do
      let r ← matchLiteral kw.data l
      let r ← matchWs1 r
      let (cap, _) ← matchQuoted r
      some (String.mk cap))
    s.data

/-- `re.search(r"TRACK\s+(\d+)\s+AUDIO", s)` with `int` applied to group 1. -/
def reSearchTrackNum (s : String) : Option ℕ :=
  searchAux
    (fun l => do
      let r ← matchLiteral "TRACK".data l
      let r ← matchWs1 r
      let (ds, r) ← matchDigits1 r
      let r ← matchWs1 r
      let _ ← matchLiteral "AUDIO".data r
      some (natOfDigits ds))
    s.data

/-- Match `\d{2}:\d{2}:\d{2}`, returning the matched timecode text. -/
def matchTimecode : List Char → Option String
  | a :: b :: c :: d :: e :: f :: g :: h :: _ =>
    if a.isDigit && b.isDigit && (c == ':') && d.isDigit && e.isDigit &&
        (f == ':') && g.isDigit && h.isDigit then
      some (String.mk [a, b, c, d, e, f, g, h])
    else none
  | _ => none

/-- `re.search(r"INDEX\s+(\d+)\s+(\d{2}:\d{2}:\d{2})", s)`, groups 1 and 2. -/
def reSearchIndex (s : String) : Option (ℕ × String) :=
  searchAux
    (fun l => do
      let r ← matchLiteral "INDEX".data l
      let r ← matchWs1 r
      let (ds, r) ← matchDigits1 r
      let r ← matchWs1 r
      let tc ← matchTimecode r
      some (natOfDigits ds, tc))
    s.data

/-! ### CUE data model and parser -/

/-- A track of a CUE sheet (core/cue.py `Track`).  `index` models the Python
dict `index number -> timestamp` as an insertion-ordered association list. -/
structure Track where
  number : ℕ
  title : Option String
  performer : Option String
  index : List (ℕ × String)
  deriving DecidableEq

/-- A parsed CUE sheet (core/cue.py `CueSheet`). -/
structure CueSheet where
  filePath : String
  audioFile : String
  tracks : List Track
  deriving DecidableEq

/-- Python dict assignment `d[k] = v`: overwrite in place or append. -/
def indexInsert : List (ℕ × String) → ℕ → String → List (ℕ × String)
  | [], k, v => [(k, v)]
  | (k0, v0) :: rest, k, v =>
    if k0 == k then (k0, v) :: rest else (k0, v0) :: indexInsert rest k v

/-- The track-scanning loop of `CueProcessor.parse_cue_file`
(core/cue.py:163-192), over stripped lines, carrying the current track and
the accumulated list.  A malformed `TRACK`/`TITLE`/`PERFORMER` line raises
`AttributeError` (regex `None` dereferenced); a malformed `INDEX` line is
guarded by `if match:` and silently skipped. -/
def parseTracks (lines : List String) (cur : Option Track) (acc : List Track) :
    Except PyError (List Track) :=
  match lines with
  | [] => .ok (acc ++ cur.toList)
  | line :: rest =>
    let l := pyStrip line
    if pyStartsWith l "TRACK" then
      match reSearchTrackNum l with
      | none => .error .attributeError
      | some n => parseTracks rest (some ⟨n, none, none, []⟩) (acc ++ cur.toList)
    else
      match cur with
      | none => parseTracks rest none acc
      | some t =>
        if pyStartsWith l "TITLE" then
          match reSearchQuoted "TITLE" l with
          | none => .error .attributeError
          | some v => parseTracks rest (some { t with title := some v }) acc
        else if pyStartsWith l "PERFORMER" then
          match reSearchQuoted "PERFORMER" l with
          | none => .error .attributeError
          | some v => parseTracks rest (some { t with performer := some v }) acc
        else if pyStartsWith l "INDEX" then
          match reSearchIndex l with
          | none => parseTracks rest (some t) acc
          | some (n, tc) =>
            parseTracks rest (some { t with index := indexInsert t.index n tc }) acc
        else parseTracks rest (some t) acc

/-- `CueProcessor.parse_cue_file` (core/cue.py:134-194) on the list of lines
of the file (file reading and the `UnicodeDecodeError` path are outside the
embedding).  First line whose stripped form starts with `FILE` is the FILE
directive; absence is a typed error, while a FILE line without a quoted
name is an untyped `AttributeError`. -/
def parseCueFile (filePath : String) (lines : List String) : Except PyError CueSheet :=
  match lines.find? (fun l => pyStartsWith (pyStrip l) "FILE") with
  | none => .error (.invalidCueFormat ("No FILE directive found in: " ++ filePath))
  | some fileLine =>
    match reSearchQuoted "FILE" fileLine with
    | none => .error .attributeError
    | some audio => (parseTracks lines none []).map (fun ts => ⟨filePath, audio, ts⟩)

/-! ### CueCombiner: code side and spec side -/

/-- One emitted `TITLE`/`PERFORMER` line, or nothing: Python's
`if track.title:` treats both `None` and `""` as absent. -/
def quotedLine (kw : String) (v : Option String) : List String :=
  match v with
  | some s => if s == "" then [] else ["    " ++ kw ++ " \"" ++ s ++ "\""]
  | none => []

/-- The `INDEX` lines of one track, each timecode re-emitted as
`seconds_to_time(time_to_seconds(t) + offset)` (core/cue.py:232-238). -/
def emitIndexLines (off : ℚ) : List (ℕ × String) → Except PyError (List String)
  | [] => .ok []
  | (n, tc) :: rest => do
    let sec ← timeToSeconds tc
    let tail ← emitIndexLines off rest
    .ok (("    INDEX " ++ pad2Nat n ++ " " ++ secondsToTime (sec + off)) :: tail)

/-- All lines of one track at combined track number `n` (core/cue.py:225-240). -/
def emitTrackLines (n : ℕ) (off : ℚ) (t : Track) : Except PyError (List String) := do
  let idx ← emitIndexLines off t.index
  .ok ((("  TRACK " ++ pad2Nat n ++ " AUDIO") :: (quotedLine "TITLE" t.title ++
    quotedLine "PERFORMER" t.performer)) ++ idx)

/-- Lines of a sheet's tracks, threading the running combined track number. -/
def sheetLinesAux (off : ℚ) : ℕ → List Track → Except PyError (List String × ℕ)
  | n, [] => .ok ([], n)
  | n, t :: ts => do
    let ls ← emitTrackLines n off t
    let (rest, n2) ← sheetLinesAux off (n + 1) ts
    .ok (ls ++ rest, n2)

/-- The `FILE` directive emitted for a sheet (core/cue.py:222). -/
def fileLine (sh : CueSheet) : String := "FILE \"" ++ sh.audioFile ++ "\" WAVE"

/-- The loop of `CueProcessor.combine_cue_sheets` (core/cue.py:211-241):
at iteration `i` the cumulative offset is recomputed as the sum of the
durations of all previous sheets (`cue_files[:i]`, each re-parsed and its
audio file re-probed).  `dur j` is the probed duration of sheet `j`'s audio
file (parsing a fixed file is deterministic, so indexing the oracle by sheet
position is faithful).  The second component is ghost instrumentation: the
ordered log of sheet indices whose duration the code queries. -/
def combineAux (dur : ℕ → ℚ) : ℕ → ℕ → List CueSheet → Except PyError (List String × List ℕ)
  | _, _, [] => .ok ([], [])
  | i, n, sh :: rest => do
    let cum : ℚ := ((List.range i).map dur).sum
    let (ls, n2) ← sheetLinesAux cum n sh.tracks
    let (lsRest, logRest) ← combineAux dur (i + 1) n2 rest
    .ok ((fileLine sh :: ls) ++ lsRest, List.range i ++ logRest)

/-- `CueProcessor.combine_cue_sheets` (core/cue.py:196-242): the
newline-joined combined CUE text. -/
def combineCueSheets (dur : ℕ → ℚ) (sheets : List CueSheet) : Except PyError String :=
  (combineAux dur 0 1 sheets).map (fun r => String.intercalate "\n" r.1)

/-- The ordered log of duration-probe calls a run of `combine_cue_sheets`
performs, by sheet index (ghost observation of core/cue.py:216-219). -/
def combineDurationLog (dur : ℕ → ℚ) (sheets : List CueSheet) : Except PyError (List ℕ) :=
  (combineAux dur 0 1 sheets).map (fun r => r.2)

/-- Modelled from the spec (§4.4): the reference left-to-right prefix-sum
algorithm.  `cumulativeOffset` starts at 0 and is carried along; after each
sheet it grows by that sheet's duration, queried exactly once (the log
records one query per sheet). -/
def combineSpecAux (dur : ℕ → ℚ) :
    ℚ → ℕ → ℕ → List CueSheet → Except PyError (List String × List ℕ)
  | _, _, _, [] => .ok ([], [])
  | off, i, n, sh :: rest => do
    let (ls, n2) ← sheetLinesAux off n sh.tracks
    let (lsRest, logRest) ← combineSpecAux dur (off + dur i) (i + 1) n2 rest
    .ok ((fileLine sh :: ls) ++ lsRest, i :: logRest)

/-- Modelled from the spec (§4.4): the combined text of the reference
prefix-sum algorithm. -/
def combineSpecText (dur : ℕ → ℚ) (sheets : List CueSheet) : Except PyError String :=
  (combineSpecAux dur 0 0 1 sheets).map (fun r => String.intercalate "\n" r.1)

/-! ### DiscOrderResolver (`CueProcessor.process_directory`, core/cue.py:244-269) -/

/-- `re.search(r"CD(\d+)", s)` with `int` on group 1: the first `CD` that is
followed by at least one digit, taking the maximal digit run. -/
def cdOrdinal : List Char → Option ℕ
  | 'C' :: 'D' :: rest =>
    let ds := rest.takeWhile Char.isDigit
    if ds.isEmpty then cdOrdinal ('D' :: rest) else some (natOfDigits ds)
  | _ :: cs => cdOrdinal cs
  | [] => none

/-- The disc ordinal of a CUE sheet path. -/
def cdKey (p : String) : Option ℕ := cdOrdinal p.data

/-- The sort key actually applied (total on paths that have an ordinal). -/
def ordKey (p : String) : ℕ := (cdKey p).getD 0

instance : DecidableRel (fun a b : String => ordKey a ≤ ordKey b) :=
  fun _ _ => Nat.decLe _ _

instance : IsTotal String (fun a b : String => ordKey a ≤ ordKey b) :=
  ⟨fun _ _ => Nat.le_total _ _⟩

instance : IsTrans String (fun a b : String => ordKey a ≤ ordKey b) :=
  ⟨fun _ _ _ => Nat.le_trans⟩

/-- The `sorted(..., key=lambda p: int(re.search(r"CD(\d+)", str(p)).group(1)))`
call of `process_directory` (core/cue.py:254-257): evaluating the key of a
path with no `CD<digits>` token dereferences `None` and raises
`AttributeError`; otherwise the paths are sorted stably and ascending by
ordinal (Python's stable sort agrees with stable insertion sort). -/
def sortCueFiles (paths : List String) : Except PyError (List String) :=
  if paths.all (fun p => (cdKey p).isSome) then
    .ok (List.insertionSort (fun a b => ordKey a ≤ ordKey b) paths)
  else .error .attributeError

/-- The file-selection phase of `process_directory` (core/cue.py:253-260):
sort the found CUE files by disc ordinal, then fail with
`CueProcessingError` if none were found. -/
def processDirectorySelect (baseDir : String) (paths : List String) :
    Except PyError (List String) := do
  let sorted ← sortCueFiles paths
  if sorted.isEmpty then
    .error (.cueProcessingError ("No CUE files found in: " ++ baseDir))
  else .ok sorted

/-! ### FilenameChapterExtractor
(`AudiobookProcessor.extract_chapters_from_filenames`, processor.py:229-293) -/

/-- Substring test, Python's `needle in haystack`. -/
def containsSub (hay needle : List Char) : Bool :=
  hay.tails.any (fun t => needle.isPrefixOf t)

/-- Python `"Introduction" in chapter_title`. -/
def hasIntro (s : String) : Bool := containsSub s.data "Introduction".data

/-- Match `" - " ++ \d+ ++ " - "`, returning the rest. -/
def matchDashNumDash : List Char → Option (List Char)
  | ' ' :: '-' :: ' ' :: rest =>
    let ds := rest.takeWhile Char.isDigit
    if ds.isEmpty then none
    else
      match rest.drop ds.length with
      | ' ' :: '-' :: ' ' :: r2 => some r2
      | _ => none
  | _ => none

/-- Leftmost suffix of the filename lying after a `" - <digits> - "` token
that is immediately followed by `Chapter <digit>`. -/
def chapterTail : List Char → Option (List Char)
  | [] => none
  | c :: cs =>
    match matchDashNumDash (c :: cs) with
    | some r =>
      if "Chapter ".data.isPrefixOf r &&
          (match r.drop 8 with | d :: _ => d.isDigit | [] => false) then
        some r
      else chapterTail cs
    | none => chapterTail cs

/-- `re.compile(r".*? - \d+ - (Chapter \d+.*?)\.mp3$").search(f).group(1)`
(processor.py:242, 250-257): the chapter phrase runs from the leftmost
eligible `Chapter` up to the final `.mp3`, which must end the name. -/
def chapterPhrase (s : String) : Option String :=
  match chapterTail s.data with
  | some r =>
    if 13 ≤ r.length && ".mp3".data.isSuffixOf r then
      some (String.mk (r.take (r.length - 4)))
    else none
  | none => none

/-- Python dict update `d[k] = d.get(k, 0) + 1` preserving insertion order. -/
def updateCount : List (String × ℕ) → String → List (String × ℕ)
  | [], k => [(k, 1)]
  | (k0, v) :: rest, k =>
    if k0 == k then (k0, v + 1) :: rest else (k0, v) :: updateCount rest k

/-- The chapter-collection loop of `extract_chapters_from_filenames`
(processor.py:248-274): skip non-matching filenames, skip files whose probed
duration is `<= 0`, never suffix a phrase containing `"Introduction"`,
otherwise suffix the phrase with its running occurrence count (starting at 1
on first occurrence).  Chapters are `(display_title, start, end)` tuples and
`t` is `current_time`. -/
def extractChaptersAux (dur : String → ℤ) :
    List String → List (String × ℕ) → ℤ → List (String × ℤ × ℤ)
  | [], _, _ => []
  | file :: fs, counts, t =>
    match chapterPhrase file with
    | none => extractChaptersAux dur fs counts t
    | some phrase =>
      let d := dur file
      if d ≤ 0 then extractChaptersAux dur fs counts t
      else if hasIntro phrase then
        (phrase, t, t + d) :: extractChaptersAux dur fs counts (t + d)
      else
        let c := (counts.lookup phrase).getD 0 + 1
        (phrase ++ " (" ++ toString c ++ ")", t, t + d) ::
          extractChaptersAux dur fs (updateCount counts phrase) (t + d)

/-- The chapter timeline extracted from the given MP3 filenames with the
given duration oracle (durations are integer seconds, processor.py:192-209). -/
def extractChapters (dur : String → ℤ) (files : List String) : List (String × ℤ × ℤ) :=
  extractChaptersAux dur files [] 0

/-- The files the extractor includes, mapped to their chapter phrases:
those matching the chapter grammar whose probed duration is positive. -/
def includedPhrases (dur : String → ℤ) (files : List String) : List String :=
  files.filterMap (fun f =>
    match chapterPhrase f with
    | some p => if dur f ≤ 0 then none else some p
    | none => none)

/-- Total duration of the included files. -/
def includedDur (dur : String → ℤ) (files : List String) : ℤ :=
  ((files.filter (fun f => (chapterPhrase f).isSome && decide (0 < dur f))).map dur).sum

/-- Modelled from the spec (§4.5 step 3): the display titles of a run of
included chapter phrases — a phrase containing `"Introduction"` is kept
verbatim, any other phrase is suffixed with its occurrence count so far
(counting from 1 on first occurrence).  `seen` is the list of phrases
already processed. -/
def specTitlesAux : List String → List String → List String
  | _, [] => []
  | seen, p :: ps =>
    (if hasIntro p then p else p ++ " (" ++ toString (seen.count p + 1) ++ ")") ::
      specTitlesAux (p :: seen) ps

/-- Modelled from the spec (§4.5 step 3): display titles of a phrase run. -/
def specDisplayTitles (ps : List String) : List String := specTitlesAux [] ps

/-- A timeline is contiguous from `t`: each chapter starts where the
previous one ended (the first at `t`) and ends strictly later. -/
def Contiguous : ℤ → List (String × ℤ × ℤ) → Prop
  | _, [] => True
  | t, c :: rest => c.2.1 = t ∧ c.2.1 < c.2.2 ∧ Contiguous c.2.2 rest

/-- The end of the last chapter (or `t` for an empty timeline). -/
def timelineEnd : ℤ → List (String × ℤ × ℤ) → ℤ
  | t, [] => t
  | _, c :: rest => timelineEnd c.2.2 rest

/-! ### ChapterTimelineWriter (processor.py:276-293) -/

/-- The writer loop of `extract_chapters_from_filenames` (processor.py:282-291):
for chapter `i` of `n`, write the block, with a newline after the title for
every chapter but the last. -/
def writeChaptersAux : ℕ → ℕ → List (String × ℤ × ℤ) → String
  | _, _, [] => ""
  | i, n, c :: rest =>
    "[CHAPTER]\n" ++ "TIMEBASE=1/1\n" ++
      "START=" ++ toString c.2.1 ++ "\n" ++ "END=" ++ toString c.2.2 ++ "\n" ++
      (if i < n - 1 then "title=" ++ c.1 ++ "\n" else "title=" ++ c.1) ++
      writeChaptersAux (i + 1) n rest

/-- The full chapters file text written by the writer (processor.py:277-291):
the `;FFMETADATA1` header line, then the chapter blocks. -/
def writeChapters (cs : List (String × ℤ × ℤ)) : String :=
  ";FFMETADATA1\n" ++ writeChaptersAux 0 cs.length cs

/-- Python's `"\n".join`. -/
def joinLines : List String → String
  | [] => ""
  | [x] => x
  | x :: y :: rest => x ++ "\n" ++ joinLines (y :: rest)

/-- Modelled from the spec (§4.6): one serialized `[CHAPTER]` block — the
lines `[CHAPTER]`, `TIMEBASE=1/1`, `START=<integer seconds>`,
`END=<integer seconds>` each ending in a newline, then `title=<title>`
with no newline of its own (the separator between chapters is supplied by
the join). -/
def chapterBlock (c : String × ℤ × ℤ) : String :=
  "[CHAPTER]\n" ++ "TIMEBASE=1/1\n" ++ "START=" ++ toString c.2.1 ++ "\n" ++
    "END=" ++ toString c.2.2 ++ "\n" ++ "title=" ++ c.1

end AudiobookTools

namespace AudiobookTools

/-! ### Digit and timecode-string lemmas -/

lemma char_toNat_inj (c d : Char) (h : c.toNat = d.toNat) : c = d :=
  Char.ext (UInt32.ext h)

lemma string_eq_of_data {a b : String} (h : a.data = b.data) : a = b := by
  cases a
  cases b
  exact congrArg String.mk h

lemma digit_toNat_all : ∀ n : ℕ, n < 10 → (digitChar n).toNat = 48 + n := by decide

lemma digit_isDigit_all : ∀ n : ℕ, n < 10 → (digitChar n).isDigit = true := by decide

lemma digitVal_digitChar_all : ∀ n : ℕ, n < 10 → digitVal (digitChar n) = n := by decide

lemma isDigit_toNat (c : Char) (h : c.isDigit = true) : 48 ≤ c.toNat ∧ c.toNat ≤ 57 := by
  simp [Char.isDigit] at h
  exact h

lemma digitVal_lt (c : Char) (h : c.isDigit = true) : digitVal c < 10 := by
  have hb := isDigit_toNat c h
  unfold digitVal
  omega

lemma digit_round (c : Char) (h : c.isDigit = true) : digitChar (digitVal c) = c := by
  have hb := isDigit_toNat c h
  have h10 : digitVal c < 10 := digitVal_lt c h
  apply char_toNat_inj
  rw [digit_toNat_all _ h10]
  unfold digitVal
  omega

lemma pad2_data_all : ∀ n : ℕ, n < 100 →
    (pad2Nat n).data = [digitChar (n / 10), digitChar (n % 10)] := by decide

lemma timeStr2_data (m s f : ℕ) (hm : m < 100) (hs : s < 100) (hf : f < 100) :
    (timeStr2 m s f).data =
      [digitChar (m / 10), digitChar (m % 10), ':',
       digitChar (s / 10), digitChar (s % 10), ':',
       digitChar (f / 10), digitChar (f % 10)] := by
  unfold timeStr2
  rw [String.data_append, String.data_append, String.data_append, String.data_append,
    pad2_data_all m hm, pad2_data_all s hs, pad2_data_all f hf]
  rfl

lemma digitChar_ne_newline : ∀ n : ℕ, n < 10 → digitChar n ≠ '\n' := by decide

lemma eq_dropLast_append_getLast {α : Type} :
    ∀ (l : List α) (a : α), l.getLast? = some a → l = l.dropLast ++ [a] := by
  intro l
  induction l with
  | nil => intro a h; simp at h
  | cons x xs ih =>
    intro a h
    cases xs with
    | nil =>
      simp only [List.getLast?_singleton, Option.some.injEq] at h
      subst h
      rfl
    | cons y ys =>
      rw [List.getLast?_cons_cons] at h
      have hy := ih a h
      conv_lhs => rw [hy]
      rfl

lemma timeToSeconds_of_data (t : String) (m s f : ℕ)
    (hm : m < 100) (hs : s < 60) (hf : f < 75)
    (hd : t.data = (timeStr2 m s f).data ∨ t.data = (timeStr2 m s f).data ++ ['\n']) :
    timeToSeconds t = .ok ((m : ℚ) * 60 + (s : ℚ) + (f : ℚ) / 75) := by
  have hts := timeStr2_data m s f hm (by omega) (by omega)
  have d1 : (digitChar (m / 10)).isDigit = true := digit_isDigit_all _ (by omega)
  have d2 : (digitChar (m % 10)).isDigit = true := digit_isDigit_all _ (by omega)
  have d3 : (digitChar (s / 10)).isDigit = true := digit_isDigit_all _ (by omega)
  have d4 : (digitChar (s % 10)).isDigit = true := digit_isDigit_all _ (by omega)
  have d5 : (digitChar (f / 10)).isDigit = true := digit_isDigit_all _ (by omega)
  have d6 : (digitChar (f % 10)).isDigit = true := digit_isDigit_all _ (by omega)
  have v1 : digitVal (digitChar (m / 10)) = m / 10 := digitVal_digitChar_all _ (by omega)
  have v2 : digitVal (digitChar (m % 10)) = m % 10 := digitVal_digitChar_all _ (by omega)
  have v3 : digitVal (digitChar (s / 10)) = s / 10 := digitVal_digitChar_all _ (by omega)
  have v4 : digitVal (digitChar (s % 10)) = s % 10 := digitVal_digitChar_all _ (by omega)
  have v5 : digitVal (digitChar (f / 10)) = f / 10 := digitVal_digitChar_all _ (by omega)
  have v6 : digitVal (digitChar (f % 10)) = f % 10 := digitVal_digitChar_all _ (by omega)
  have hne : digitChar (f % 10) ≠ '\n' := digitChar_ne_newline _ (by omega)
  have em : 10 * (m / 10) + m % 10 = m := by omega
  have es : 10 * (s / 10) + s % 10 = s := by omega
  have ef : 10 * (f / 10) + f % 10 = f := by omega
  have hrange : ¬(60 ≤ s ∨ 75 ≤ f) := by omega
  unfold timeToSeconds
  cases hd with
  | inl h =>
    rw [hts] at h
    rw [h]
    rw [show ([digitChar (m / 10), digitChar (m % 10), ':', digitChar (s / 10),
        digitChar (s % 10), ':', digitChar (f / 10), digitChar (f % 10)] :
        List Char).getLast? = some (digitChar (f % 10)) from by
      simp [List.getLast?_cons_cons, List.getLast?_singleton]]
    rw [if_neg (by simp [hne])]
    dsimp only
    simp only [d1, d2, d3, d4, d5, d6, v1, v2, v3, v4, v5, v6, beq_self_eq_true,
      Bool.and_self, Bool.and_true, Bool.true_and, if_true]
    rw [em, es, ef]
    simp [hrange]
  | inr h =>
    rw [hts] at h
    rw [show ([digitChar (m / 10), digitChar (m % 10), ':', digitChar (s / 10),
        digitChar (s % 10), ':', digitChar (f / 10), digitChar (f % 10)] :
        List Char) ++ ['\n'] = [digitChar (m / 10), digitChar (m % 10), ':',
        digitChar (s / 10), digitChar (s % 10), ':', digitChar (f / 10),
        digitChar (f % 10), '\n'] from rfl] at h
    rw [h]
    rw [show ([digitChar (m / 10), digitChar (m % 10), ':', digitChar (s / 10),
        digitChar (s % 10), ':', digitChar (f / 10), digitChar (f % 10), '\n'] :
        List Char).getLast? = some '\n' from by
      simp [List.getLast?_cons_cons, List.getLast?_singleton]]
    rw [if_pos rfl]
    rw [show ([digitChar (m / 10), digitChar (m % 10), ':', digitChar (s / 10),
        digitChar (s % 10), ':', digitChar (f / 10), digitChar (f % 10), '\n'] :
        List Char).dropLast = [digitChar (m / 10), digitChar (m % 10), ':',
        digitChar (s / 10), digitChar (s % 10), ':', digitChar (f / 10),
        digitChar (f % 10)] from rfl]
    dsimp only
    simp only [d1, d2, d3, d4, d5, d6, v1, v2, v3, v4, v5, v6, beq_self_eq_true,
      Bool.and_self, Bool.and_true, Bool.true_and, if_true]
    rw [em, es, ef]
    simp [hrange]

lemma timeToSeconds_timeStr2 (m s f : ℕ) (hm : m < 100) (hs : s < 60) (hf : f < 75) :
    timeToSeconds (timeStr2 m s f) = .ok ((m : ℚ) * 60 + (s : ℚ) + (f : ℚ) / 75) :=
  timeToSeconds_of_data _ m s f hm hs hf (Or.inl rfl)

lemma timeToSeconds_newline (m s f : ℕ) (hm : m < 100) (hs : s < 60) (hf : f < 75) :
    timeToSeconds (timeStr2 m s f ++ "\n") =
      .ok ((m : ℚ) * 60 + (s : ℚ) + (f : ℚ) / 75) :=
  timeToSeconds_of_data _ m s f hm hs hf (Or.inr (String.data_append _ _))

lemma timeToSeconds_ok_iff (t : String) (q : ℚ) :
    timeToSeconds t = .ok q ↔
      ∃ m s f : ℕ, m < 100 ∧ s < 60 ∧ f < 75 ∧
        (t = timeStr2 m s f ∨ t = timeStr2 m s f ++ "\n") ∧
        q = (m : ℚ) * 60 + (s : ℚ) + (f : ℚ) / 75 := by
  constructor
  · intro h
    unfold timeToSeconds at h
    dsimp only at h
    split at h
    case _ m1 m2 c1 s1 s2 c2 f1 f2 heq =>
      split at h
      case isFalse => exact absurd h (by simp)
      case isTrue hcond =>
        split at h
        case isTrue => exact absurd h (by simp)
        case isFalse hrange =>
          simp only [Bool.and_eq_true, beq_iff_eq] at hcond
          obtain ⟨⟨⟨⟨⟨⟨⟨hd1, hd2⟩, hc1⟩, hd3⟩, hd4⟩, hc2⟩, hd5⟩, hd6⟩ := hcond
          rw [Except.ok.injEq] at h
          have e1 := digitVal_lt m1 hd1
          have e2 := digitVal_lt m2 hd2
          have e3 := digitVal_lt s1 hd3
          have e4 := digitVal_lt s2 hd4
          have e5 := digitVal_lt f1 hd5
          have e6 := digitVal_lt f2 hd6
          have g1 : (10 * digitVal m1 + digitVal m2) / 10 = digitVal m1 := by omega
          have g2 : (10 * digitVal m1 + digitVal m2) % 10 = digitVal m2 := by omega
          have g3 : (10 * digitVal s1 + digitVal s2) / 10 = digitVal s1 := by omega
          have g4 : (10 * digitVal s1 + digitVal s2) % 10 = digitVal s2 := by omega
          have g5 : (10 * digitVal f1 + digitVal f2) / 10 = digitVal f1 := by omega
          have g6 : (10 * digitVal f1 + digitVal f2) % 10 = digitVal f2 := by omega
          have hts : (timeStr2 (10 * digitVal m1 + digitVal m2)
              (10 * digitVal s1 + digitVal s2) (10 * digitVal f1 + digitVal f2)).data =
              [m1, m2, c1, s1, s2, c2, f1, f2] := by
            rw [timeStr2_data _ _ _ (by omega) (by omega) (by omega)]
            rw [g1, g2, g3, g4, g5, g6, digit_round m1 hd1, digit_round m2 hd2,
              digit_round s1 hd3, digit_round s2 hd4, digit_round f1 hd5,
              digit_round f2 hd6, hc1, hc2]
          refine ⟨10 * digitVal m1 + digitVal m2, 10 * digitVal s1 + digitVal s2,
            10 * digitVal f1 + digitVal f2, by omega, by omega, by omega, ?_, h.symm⟩
          by_cases hnl : t.data.getLast? = some '\n'
          · right
            rw [if_pos hnl] at heq
            apply string_eq_of_data
            rw [String.data_append, hts]
            have hsplit := eq_dropLast_append_getLast t.data '\n' hnl
            rw [hsplit, heq]
          · left
            rw [if_neg hnl] at heq
            apply string_eq_of_data
            rw [heq, hts]
    case _ hne => exact absurd h (by simp)
  · rintro ⟨m, s, f, hm, hs, hf, hd, rfl⟩
    cases hd with
    | inl h =>
      rw [h]
      exact timeToSeconds_timeStr2 m s f hm hs hf
    | inr h =>
      rw [h]
      exact timeToSeconds_newline m s f hm hs hf

lemma timeToSeconds_error_shape (t : String) (e : PyError)
    (h : timeToSeconds t = .error e) : ∃ msg, e = .invalidCueFormat msg := by
  unfold timeToSeconds at h
  dsimp only at h
  split at h
  · split at h
    · split at h
      · exact ⟨_, (Except.error.injEq _ _).mp h |>.symm⟩
      · exact absurd h (by simp)
    · exact ⟨_, (Except.error.injEq _ _).mp h |>.symm⟩
  · exact ⟨_, (Except.error.injEq _ _).mp h |>.symm⟩

lemma timeToSeconds_total (t : String) :
    (∃ q, timeToSeconds t = .ok q) ∨ ∃ e, timeToSeconds t = .error e := by
  cases h : timeToSeconds t
  · exact .inr ⟨_, rfl⟩
  · exact .inl ⟨_, rfl⟩

/-! ### Rounding and `seconds_to_time` lemmas -/

lemma pyRound_intCast (z : ℤ) : pyRound ((z : ℚ)) = z := by
  unfold pyRound
  rw [Int.floor_intCast]
  simp

lemma pyRound_natCast (n : ℕ) : pyRound ((n : ℚ)) = (n : ℤ) := by
  have : ((n : ℚ)) = ((n : ℤ) : ℚ) := by push_cast; ring
  rw [this, pyRound_intCast]

lemma secondsToTime_eval (m s f : ℕ) (_hm : m < 100) (hs : s < 60) (hf : f < 75) :
    secondsToTime ((m : ℚ) * 60 + (s : ℚ) + (f : ℚ) / 75) = timeStr2 m s f := by
  have key : ((m : ℚ) * 60 + (s : ℚ) + (f : ℚ) / 75) * 75 =
      ((4500 * m + 75 * s + f : ℕ) : ℚ) := by
    push_cast
    ring
  simp only [secondsToTime]
  rw [key, pyRound_natCast]
  rw [show ((4500 * m + 75 * s + f : ℕ) : ℤ).fdiv (4500 : ℤ) =
      (((4500 * m + 75 * s + f) / 4500 : ℕ) : ℤ) from (Int.ofNat_fdiv _ _).symm]
  rw [show ((4500 * m + 75 * s + f : ℕ) : ℤ).fmod (4500 : ℤ) =
      (((4500 * m + 75 * s + f) % 4500 : ℕ) : ℤ) from (Int.ofNat_fmod _ _).symm]
  rw [show (((4500 * m + 75 * s + f) % 4500 : ℕ) : ℤ).fdiv (75 : ℤ) =
      ((((4500 * m + 75 * s + f) % 4500) / 75 : ℕ) : ℤ) from (Int.ofNat_fdiv _ _).symm]
  rw [show (((4500 * m + 75 * s + f) % 4500 : ℕ) : ℤ).fmod (75 : ℤ) =
      ((((4500 * m + 75 * s + f) % 4500) % 75 : ℕ) : ℤ) from (Int.ofNat_fmod _ _).symm]
  have e1 : (4500 * m + 75 * s + f) / 4500 = m := by omega
  have e2 : ((4500 * m + 75 * s + f) % 4500) / 75 = s := by omega
  have e3 : ((4500 * m + 75 * s + f) % 4500) % 75 = f := by omega
  rw [e1, e2, e3]
  rfl

lemma secondsToTime_natCast (n : ℕ) (h : n < 6000) :
    secondsToTime ((n : ℚ)) = timeStr2 (n / 60) (n % 60) 0 := by
  have harg : ((n : ℚ)) = ((n / 60 : ℕ) : ℚ) * 60 + ((n % 60 : ℕ) : ℚ) + ((0 : ℕ) : ℚ) / 75 := by
    have hsum : (n / 60) * 60 + n % 60 = n := by omega
    norm_num
    exact_mod_cast hsum.symm
  rw [harg]
  exact secondsToTime_eval _ _ _ (by omega) (by omega) (by omega)

/-- C2: for every timecode string of the form `MM:SS:FF` with each field
exactly two digits, `SS ∈ [0,59]` and `FF ∈ [0,74]` (such strings are exactly
`timeStr2 m s f` with `m < 100`, `s < 60`, `f < 75`), converting to seconds
and back returns the identical string:
`seconds_to_time(time_to_seconds(t)) == t`. -/
theorem c2_roundtrip_exact (m s f : ℕ) (hm : m < 100) (hs : s < 60) (hf : f < 75) :
    (timeToSeconds (timeStr2 m s f)).map secondsToTime = .ok (timeStr2 m s f) := by
  rw [timeToSeconds_timeStr2 m s f hm hs hf]
  show Except.ok (secondsToTime _) = _
  rw [secondsToTime_eval m s f hm hs hf]

/-- Witness for C2 at the concrete timecode `"12:34:56"`. -/
theorem c2_roundtrip_exact_witness :
    (timeToSeconds "12:34:56").map secondsToTime = .ok "12:34:56" := by
  rw [show ("12:34:56" : String) = timeStr2 12 34 56 by decide]
  exact c2_roundtrip_exact 12 34 56 (by norm_num) (by norm_num) (by norm_num)

/-- C9 counterexample: `time_to_seconds` does not fail on every string
outside the two-digit `DD:DD:DD` pattern — the 9-character input
`"12:34:56\n"` succeeds, because `re.match`'s `$` also matches just before
a final newline and `int("56\n")` strips the whitespace. -/
theorem c9_counterexample_trailing_newline :
    timeToSeconds "12:34:56\n" = .ok ((12 : ℚ) * 60 + 34 + 56 / 75) ∧
    ("12:34:56\n" : String).length = 9 := by
  constructor
  · have h := timeToSeconds_newline 12 34 56 (by norm_num) (by norm_num) (by norm_num)
    rw [show (timeStr2 12 34 56 ++ "\n" : String) = "12:34:56\n" from by decide] at h
    rw [h]
    norm_num
  · decide

/-- C9 (amended): on ASCII input strings (where Python's Unicode-aware `\d`
coincides with the model's `[0-9]` digit class), `time_to_seconds` fails
with the invalid-timecode error exactly when the string is neither of the
two-digit `DD:DD:DD` form nor that form followed by a single trailing
newline (accepted because `re.match`'s `$` matches before a final `'\n'`
and `int` strips the whitespace), or its seconds field is ≥ 60, or its
frames field is ≥ 75; on every other input it returns
`minutes*60 + seconds + frames/75`. -/
theorem c9_time_to_seconds_spec (t : String) (_hascii : ∀ c ∈ t.data, c.toNat < 128) :
    (∃ m s f : ℕ, m < 100 ∧ s < 60 ∧ f < 75 ∧
        (t = timeStr2 m s f ∨ t = timeStr2 m s f ++ "\n") ∧
        timeToSeconds t = .ok ((m : ℚ) * 60 + (s : ℚ) + (f : ℚ) / 75))
    ∨ ((¬ ∃ m s f : ℕ, m < 100 ∧ s < 60 ∧ f < 75 ∧
        (t = timeStr2 m s f ∨ t = timeStr2 m s f ++ "\n")) ∧
        ∃ msg, timeToSeconds t = .error (.invalidCueFormat msg)) := by
  by_cases hv : ∃ m s f : ℕ, m < 100 ∧ s < 60 ∧ f < 75 ∧
      (t = timeStr2 m s f ∨ t = timeStr2 m s f ++ "\n")
  · left
    obtain ⟨m, s, f, hm, hs, hf, hd⟩ := hv
    refine ⟨m, s, f, hm, hs, hf, hd, ?_⟩
    cases hd with
    | inl h =>
      rw [h]
      exact timeToSeconds_timeStr2 m s f hm hs hf
    | inr h =>
      rw [h]
      exact timeToSeconds_newline m s f hm hs hf
  · right
    refine ⟨hv, ?_⟩
    cases h : timeToSeconds t with
    | ok q =>
      obtain ⟨m, s, f, hm, hs, hf, ht, _⟩ := (timeToSeconds_ok_iff t q).mp h
      exact absurd ⟨m, s, f, hm, hs, hf, ht⟩ hv
    | error e =>
      obtain ⟨msg, rfl⟩ := timeToSeconds_error_shape t e h
      exact ⟨msg, rfl⟩

/-- Witness for C9 (amended) at the concrete input `"12:34:56\n"`, which is
accepted through the trailing-newline branch of the characterization. -/
theorem c9_time_to_seconds_spec_witness :
    (∃ m s f : ℕ, m < 100 ∧ s < 60 ∧ f < 75 ∧
        (("12:34:56\n" : String) = timeStr2 m s f ∨
          ("12:34:56\n" : String) = timeStr2 m s f ++ "\n") ∧
        timeToSeconds "12:34:56\n" = .ok ((m : ℚ) * 60 + (s : ℚ) + (f : ℚ) / 75))
    ∨ ((¬ ∃ m s f : ℕ, m < 100 ∧ s < 60 ∧ f < 75 ∧
        (("12:34:56\n" : String) = timeStr2 m s f ∨
          ("12:34:56\n" : String) = timeStr2 m s f ++ "\n")) ∧
        ∃ msg, timeToSeconds "12:34:56\n" = .error (.invalidCueFormat msg)) :=
  c9_time_to_seconds_spec "12:34:56\n" (by decide)

/-! ### Parser error behaviour (C10) -/

/-- C10: on syntactically malformed CUE text, `parse_cue_file` does not raise
a typed `InvalidCueFormatError` but an untyped `AttributeError` (a failed
`re.search` dereferenced with `.group`): witnessed by a `FILE` line without a
double-quoted filename, a `TRACK` line not matching `TRACK \d+ AUDIO`, and
`TITLE`/`PERFORMER` lines inside a track without a quoted value; only a
malformed `INDEX` line is guarded and silently skipped. -/
theorem c10_parse_untyped_attribute_errors :
    parseCueFile "f.cue" ["FILE audio.flac WAVE"] = .error .attributeError ∧
    parseCueFile "f.cue" ["FILE \"a.flac\" WAVE", "TRACK 01 MP3"] =
      .error .attributeError ∧
    parseCueFile "f.cue"
      ["FILE \"a.flac\" WAVE", "  TRACK 01 AUDIO", "    TITLE NoQuotes"] =
      .error .attributeError ∧
    parseCueFile "f.cue"
      ["FILE \"a.flac\" WAVE", "  TRACK 01 AUDIO", "    PERFORMER x y"] =
      .error .attributeError ∧
    parseCueFile "f.cue"
      ["FILE \"a.flac\" WAVE", "  TRACK 01 AUDIO", "    INDEX 01 bogus", "    TITLE \"T\""] =
      .ok ⟨"f.cue", "a.flac", [⟨1, some "T", none, []⟩]⟩ :=
  ⟨by decide, by decide, by decide, by decide, by decide⟩

/-! ### Empty sheet set (C6) -/

/-- C6 counterexample: `combine_cue_sheets` applied to an empty sheet list
does not fail with `CueProcessingError` — it returns the empty combined
text. -/
theorem c6_counterexample_empty_combine_returns_ok :
    combineCueSheets (fun _ => 0) [] = .ok "" := rfl

/-- C6 (amended): `combine_cue_sheets` on an empty sheet list returns empty
output without error; the empty-set failure lives one layer up in
`process_directory`, which raises `CueProcessingError` (naming the scanned
directory) when no CUE files were found. -/
theorem c6_empty_check_lives_in_process_directory :
    (∀ dur : ℕ → ℚ, combineCueSheets dur [] = .ok "") ∧
    (∀ baseDir : String, processDirectorySelect baseDir [] =
      .error (.cueProcessingError ("No CUE files found in: " ++ baseDir))) :=
  ⟨fun _ => rfl, fun _ => rfl⟩

/-! ### Duration-probe call counts (C7) -/

lemma combineAux_log (dur : ℕ → ℚ) :
    ∀ (l : List CueSheet) (i n : ℕ) (res : List String × List ℕ),
      combineAux dur i n l = .ok res →
      res.2 = (List.range l.length).flatMap (fun k => List.range (i + k)) := by
  intro l
  induction l with
  | nil =>
    intro i n res h
    simp only [combineAux] at h
    cases h
    rfl
  | cons sh rest ih =>
    intro i n res h
    simp only [combineAux, bind, Except.bind] at h
    cases hsl : sheetLinesAux (((List.range i).map dur).sum) n sh.tracks with
    | error e => rw [hsl] at h; exact absurd h (by simp)
    | ok p =>
      rw [hsl] at h
      dsimp only at h
      cases hrec : combineAux dur (i + 1) p.2 rest with
      | error e => rw [hrec] at h; exact absurd h (by simp)
      | ok q =>
        rw [hrec] at h
        cases h
        have hq := ih (i + 1) p.2 q hrec
        show List.range i ++ q.2 = _
        rw [hq, List.length_cons, List.range_succ_eq_map, List.flatMap_cons]
        congr 1
        rw [List.flatMap_map]
        apply List.flatMap_congr
        intro k _
        congr 1
        omega

/-- C7: the duration oracle is NOT queried exactly once per sheet.  Over four
(trackless) sheets the code's probe-call log, by sheet index, is
`[0, 0, 1, 0, 1, 2]`: six calls in total (neither N-1 nor N for N = 4), the
first sheet probed three times and the last sheet never; in general a
successful run probes sheet `k` once per later iteration
(`log = flatMap range (range N)`). -/
theorem c7_duration_probe_requeried :
    (combineDurationLog (fun _ => 1)
      [⟨"p1", "a1", []⟩, ⟨"p2", "a2", []⟩, ⟨"p3", "a3", []⟩, ⟨"p4", "a4", []⟩] =
      .ok [0, 0, 1, 0, 1, 2] ∧
      ([0, 0, 1, 0, 1, 2] : List ℕ).count 0 = 3 ∧
      ([0, 0, 1, 0, 1, 2] : List ℕ).length = 6) ∧
    (∀ (dur : ℕ → ℚ) (sheets : List CueSheet) (log : List ℕ),
      combineDurationLog dur sheets = .ok log →
      log = (List.range sheets.length).flatMap List.range) := by
  refine ⟨⟨by decide, by decide, by decide⟩, ?_⟩
  intro dur sheets log h
  simp only [combineDurationLog, Except.map] at h
  cases hc : combineAux dur 0 1 sheets with
  | error e => rw [hc] at h; exact absurd h (by simp)
  | ok res =>
    rw [hc] at h
    cases h
    have := combineAux_log dur sheets 0 1 res hc
    simpa using this

/-! ### Disc order resolution (C8) -/

/-- C8 counterexample: resolving the combine order of a sheet set containing
a path with no `CD<digits>` token fails with the untyped `AttributeError`,
not with `CueProcessingError` as claimed. -/
theorem c8_counterexample_missing_token_attribute_error :
    sortCueFiles ["book.cue"] = .error .attributeError := by decide

/-- C8 (amended): sheets are sorted ascending by the numeric ordinal of a
`CD<digits>` token in each path, but when some path contains no such token
the operation fails with an untyped `AttributeError` (from `.group` on a
failed `re.search`), not with `CueProcessingError`. -/
theorem c8_sort_by_disc_ordinal :
    (∀ (paths : List String) (l : List String), sortCueFiles paths = .ok l →
      l.Perm paths ∧ l.Pairwise (fun a b => ordKey a ≤ ordKey b)) ∧
    (∀ paths : List String, (∃ p ∈ paths, cdKey p = none) →
      sortCueFiles paths = .error .attributeError) := by
  constructor
  · intro paths l h
    unfold sortCueFiles at h
    split at h
    · cases h
      exact ⟨List.perm_insertionSort _ _, List.sorted_insertionSort _ _⟩
    · exact absurd h (by simp)
  · rintro paths ⟨p, hp, hnone⟩
    unfold sortCueFiles
    split
    case isTrue hall =>
      rw [List.all_eq_true] at hall
      have := hall p hp
      rw [hnone] at this
      exact absurd this (by simp)
    case isFalse => rfl

/-- Witness for C8 (amended): a concrete sort by disc ordinal, and a concrete
missing-token failure. -/
theorem c8_sort_by_disc_ordinal_witness :
    (["y CD1.cue", "x CD2.cue"] : List String).Perm ["x CD2.cue", "y CD1.cue"] ∧
    (["y CD1.cue", "x CD2.cue"] : List String).Pairwise
      (fun a b => ordKey a ≤ ordKey b) ∧
    sortCueFiles ["book.cue"] = .error .attributeError := by
  have h1 := c8_sort_by_disc_ordinal.1 ["x CD2.cue", "y CD1.cue"]
    ["y CD1.cue", "x CD2.cue"] (by decide)
  refine ⟨h1.1, h1.2, ?_⟩
  exact c8_sort_by_disc_ordinal.2 ["book.cue"] ⟨"book.cue", by decide, by decide⟩

/-! ### ChapterTimelineWriter lemmas (C5) -/

lemma writeChaptersAux_join :
    ∀ (cs : List (String × ℤ × ℤ)) (i : ℕ),
      writeChaptersAux i (i + cs.length) cs = joinLines (cs.map chapterBlock) := by
  intro cs
  induction cs with
  | nil => intro i; rfl
  | cons c rest ih =>
    intro i
    cases rest with
    | nil =>
      rw [writeChaptersAux,
        if_neg (by simp only [List.length_cons, List.length_nil]; omega),
        writeChaptersAux, List.map_cons, List.map_nil]
      simp only [joinLines, chapterBlock, String.append_assoc, String.append_empty]
    | cons c2 rest2 =>
      have hn : i + (c :: c2 :: rest2).length = (i + 1) + ((c2 :: rest2).length) := by
        simp only [List.length_cons]
        omega
      rw [hn, writeChaptersAux,
        if_pos (by simp only [List.length_cons]; omega),
        ih (i + 1), List.map_cons, List.map_cons]
      simp only [joinLines, chapterBlock, String.append_assoc]

lemma joinLines_blocks_last :
    ∀ (cs : List (String × ℤ × ℤ)) (c : String × ℤ × ℤ), cs.getLast? = some c →
      ∃ pre, joinLines (cs.map chapterBlock) = pre ++ ("title=" ++ c.1) := by
  intro cs
  induction cs with
  | nil => intro c h; exact absurd h (by simp)
  | cons c0 rest ih =>
    intro c h
    cases rest with
    | nil =>
      simp only [List.getLast?_singleton, Option.some.injEq] at h
      subst h
      refine ⟨"[CHAPTER]\n" ++ "TIMEBASE=1/1\n" ++ "START=" ++ toString c0.2.1 ++ "\n" ++
        "END=" ++ toString c0.2.2 ++ "\n", ?_⟩
      simp only [List.map_cons, List.map_nil, joinLines, chapterBlock,
        String.append_assoc]
    | cons c1 rest1 =>
      rw [List.getLast?_cons_cons] at h
      obtain ⟨pre, hpre⟩ := ih c h
      refine ⟨chapterBlock c0 ++ "\n" ++ pre, ?_⟩
      rw [List.map_cons]
      simp only [joinLines]
      rw [List.map_cons] at hpre
      rw [hpre]
      simp only [String.append_assoc]

/-- C5: for every chapter timeline, the writer serializes exactly one header
line (`;FFMETADATA1`) followed, for each chapter in order, by the lines
`[CHAPTER]`, `TIMEBASE=1/1`, `START=<integer seconds>`, `END=<integer
seconds>`, `title=<title>`, the chapter blocks being newline-joined so that
the very last chapter's title line is not followed by any trailing newline
or blank line: the whole serialization ends exactly at the last title. -/
theorem c5_writer_format :
    (∀ cs : List (String × ℤ × ℤ),
      writeChapters cs = ";FFMETADATA1\n" ++ joinLines (cs.map chapterBlock)) ∧
    (∀ (cs : List (String × ℤ × ℤ)) (c : String × ℤ × ℤ), cs.getLast? = some c →
      ∃ pre, writeChapters cs = pre ++ ("title=" ++ c.1)) := by
  have hw : ∀ cs : List (String × ℤ × ℤ),
      writeChapters cs = ";FFMETADATA1\n" ++ joinLines (cs.map chapterBlock) := by
    intro cs
    unfold writeChapters
    rw [show cs.length = 0 + cs.length by omega, writeChaptersAux_join cs 0]
  refine ⟨hw, ?_⟩
  intro cs c h
  obtain ⟨pre, hpre⟩ := joinLines_blocks_last cs c h
  refine ⟨";FFMETADATA1\n" ++ pre, ?_⟩
  rw [hw cs, hpre, String.append_assoc]

/-- Witness for C5 on a concrete two-chapter timeline. -/
theorem c5_writer_format_witness :
    writeChapters [("A", (0 : ℤ), (1 : ℤ)), ("B", 1, 2)] =
      ";FFMETADATA1\n" ++
        joinLines ([("A", (0 : ℤ), (1 : ℤ)), ("B", 1, 2)].map chapterBlock) ∧
    ∃ pre, writeChapters [("A", (0 : ℤ), (1 : ℤ)), ("B", 1, 2)] =
      pre ++ ("title=" ++ "B") :=
  ⟨c5_writer_format.1 [("A", 0, 1), ("B", 1, 2)],
    c5_writer_format.2 [("A", 0, 1), ("B", 1, 2)] ("B", 1, 2) (by decide)⟩

/-! ### Extractor timeline lemmas (C3) -/

lemma extractAux_timeline (dur : String → ℤ) :
    ∀ (fs : List String) (counts : List (String × ℕ)) (t : ℤ),
      Contiguous t (extractChaptersAux dur fs counts t) ∧
      timelineEnd t (extractChaptersAux dur fs counts t) = t + includedDur dur fs := by
  intro fs
  induction fs with
  | nil =>
    intro counts t
    exact ⟨trivial, by simp [extractChaptersAux, timelineEnd, includedDur]⟩
  | cons f fs ih =>
    intro counts t
    cases hp : chapterPhrase f with
    | none =>
      simp only [extractChaptersAux, hp]
      have hinc : includedDur dur (f :: fs) = includedDur dur fs := by
        simp [includedDur, List.filter_cons, hp]
      rw [hinc]
      exact ih counts t
    | some p =>
      simp only [extractChaptersAux, hp]
      by_cases hd : dur f ≤ 0
      · rw [if_pos hd]
        have hinc : includedDur dur (f :: fs) = includedDur dur fs := by
          have hnp : ¬(0 < dur f) := by omega
          simp [includedDur, List.filter_cons, hp, hnp]
        rw [hinc]
        exact ih counts t
      · rw [if_neg hd]
        have hpos : 0 < dur f := by omega
        have hinc : includedDur dur (f :: fs) = dur f + includedDur dur fs := by
          simp [includedDur, List.filter_cons, hp, hpos]
        by_cases hi : hasIntro p
        · rw [if_pos hi]
          refine ⟨⟨rfl, by show t < t + dur f; omega, (ih counts (t + dur f)).1⟩, ?_⟩
          show timelineEnd (t + dur f) (extractChaptersAux dur fs counts (t + dur f)) = _
          rw [(ih counts (t + dur f)).2, hinc]
          omega
        · rw [if_neg hi]
          refine ⟨⟨rfl, by show t < t + dur f; omega,
            (ih (updateCount counts p) (t + dur f)).1⟩, ?_⟩
          show timelineEnd (t + dur f)
            (extractChaptersAux dur fs (updateCount counts p) (t + dur f)) = _
          rw [(ih (updateCount counts p) (t + dur f)).2, hinc]
          omega

/-- C3: for every input list of MP3 paths and every duration oracle, the
chapter timeline built by the filename extractor is contiguous from zero:
the first chapter starts at 0, each chapter's end equals the next chapter's
start, each chapter's end strictly exceeds its start, and the last chapter's
end equals the sum of the durations of all included files (those matching
the chapter grammar with positive probed duration). -/
theorem c3_timeline_contiguous (dur : String → ℤ) (files : List String) :
    Contiguous 0 (extractChapters dur files) ∧
    timelineEnd 0 (extractChapters dur files) = includedDur dur files := by
  have h := extractAux_timeline dur files [] 0
  unfold extractChapters
  refine ⟨h.1, ?_⟩
  rw [h.2]
  omega

/-! ### Extractor title lemmas (C4) -/

lemma lookup_updateCount (k q : String) :
    ∀ counts : List (String × ℕ),
      (updateCount counts k).lookup q =
        if q = k then some ((counts.lookup k).getD 0 + 1) else counts.lookup q := by
  intro counts
  induction counts with
  | nil =>
    by_cases hq : q = k
    · subst hq
      simp [updateCount, List.lookup]
    · have hb : (q == k) = false := beq_false_of_ne hq
      simp [updateCount, List.lookup, hq, hb]
  | cons kv rest ih =>
    obtain ⟨k0, v⟩ := kv
    by_cases h0 : k0 = k
    · subst h0
      by_cases hq : q = k0
      · subst hq
        simp [updateCount, List.lookup]
      · have hb : (q == k0) = false := beq_false_of_ne hq
        simp [updateCount, List.lookup, hq, hb]
    · have hb0 : (k0 == k) = false := beq_false_of_ne h0
      by_cases hq : q = k0
      · subst hq
        have hqk : ¬(q = k) := fun he => h0 he
        simp [updateCount, List.lookup, hb0, hqk]
      · have hbq : (q == k0) = false := beq_false_of_ne hq
        by_cases hqk : q = k
        · subst hqk
          simp [updateCount, List.lookup, hb0, hbq, ih]
        · simp [updateCount, List.lookup, hb0, hbq, hqk, ih]

lemma extractAux_titles (dur : String → ℤ) :
    ∀ (fs : List String) (counts : List (String × ℕ)) (seen : List String) (t : ℤ),
      (∀ p, hasIntro p = false → (counts.lookup p).getD 0 = seen.count p) →
      (extractChaptersAux dur fs counts t).map (fun c => c.1) =
        specTitlesAux seen (includedPhrases dur fs) := by
  intro fs
  induction fs with
  | nil => intro counts seen t _; rfl
  | cons f fs ih =>
    intro counts seen t hinv
    cases hp : chapterPhrase f with
    | none =>
      have hip : includedPhrases dur (f :: fs) = includedPhrases dur fs := by
        simp [includedPhrases, List.filterMap_cons, hp]
      simp only [extractChaptersAux, hp, hip]
      exact ih counts seen t hinv
    | some p =>
      by_cases hd : dur f ≤ 0
      · have hip : includedPhrases dur (f :: fs) = includedPhrases dur fs := by
          simp [includedPhrases, List.filterMap_cons, hp, if_pos hd]
        simp only [extractChaptersAux, hp, if_pos hd, hip]
        exact ih counts seen t hinv
      · have hip : includedPhrases dur (f :: fs) = p :: includedPhrases dur fs := by
          simp [includedPhrases, List.filterMap_cons, hp, if_neg hd]
        simp only [extractChaptersAux, hp, if_neg hd, hip, specTitlesAux]
        by_cases hi : hasIntro p
        · rw [if_pos hi, if_pos hi, List.map_cons]
          congr 1
          apply ih counts (p :: seen) (t + dur f)
          intro q hq
          have hqp : ¬(q = p) := by
            intro he
            rw [he, hi] at hq
            exact Bool.true_eq_false.mp hq
          rw [hinv q hq, List.count_cons, if_neg (by simpa using Ne.symm hqp)]
          omega
        · rw [if_neg hi, if_neg hi, List.map_cons]
          have hif : hasIntro p = false := Bool.not_eq_true _ |>.mp hi
          congr 1
          · rw [hinv p hif]
          · apply ih (updateCount counts p) (p :: seen) (t + dur f)
            intro q hq
            rw [lookup_updateCount p q counts]
            by_cases hqp : q = p
            · subst hqp
              rw [if_pos rfl]
              simp only [Option.getD_some]
              rw [hinv q hq, List.count_cons, if_pos (by simp)]
            · rw [if_neg hqp, hinv q hq, List.count_cons,
                if_neg (by simpa using Ne.symm hqp)]
              omega

/-- C4: in the filename extractor, a chapter phrase containing the literal
word "Introduction" is used as the display title unchanged, while every
other chapter phrase is suffixed with its running occurrence count in
parentheses, the first occurrence already receiving "(1)" and the counter
shared across the whole run; in particular the spec's three-file example
produces titles "Chapter 1 - Introduction", "Chapter 2 (1)", "Chapter 2 (2)"
with timeline (0,1800), (1800,4500), (4500,5700). -/
theorem c4_title_disambiguation :
    (∀ (dur : String → ℤ) (files : List String),
      (extractChapters dur files).map (fun c => c.1) =
        specDisplayTitles (includedPhrases dur files)) ∧
    extractChapters
      (fun f => if f = "Book - 01 - Chapter 1 - Introduction.mp3" then 1800
        else if f = "Book - 02 - Chapter 2.mp3" then 2700 else 1200)
      ["Book - 01 - Chapter 1 - Introduction.mp3", "Book - 02 - Chapter 2.mp3",
        "Book - 03 - Chapter 2.mp3"] =
      [("Chapter 1 - Introduction", 0, 1800), ("Chapter 2 (1)", 1800, 4500),
        ("Chapter 2 (2)", 4500, 5700)] := by
  constructor
  · intro dur files
    exact extractAux_titles dur files [] [] 0 (by intro q _; simp [List.lookup])
  · decide

/-! ### CueCombiner refinement (C1) -/

lemma combineAux_text_eq (dur : ℕ → ℚ) :
    ∀ (l : List CueSheet) (i n : ℕ),
      (combineAux dur i n l).map (fun r => r.1) =
        (combineSpecAux dur (((List.range i).map dur).sum) i n l).map (fun r => r.1) := by
  intro l
  induction l with
  | nil => intro i n; rfl
  | cons sh rest ih =>
    intro i n
    simp only [combineAux, combineSpecAux, bind, Except.bind]
    cases hsl : sheetLinesAux (((List.range i).map dur).sum) n sh.tracks with
    | error e => rfl
    | ok p =>
      dsimp only
      have hsum : ((List.range (i + 1)).map dur).sum =
          ((List.range i).map dur).sum + dur i := by
        rw [List.range_succ]
        simp
      have ih2 := ih (i + 1) p.2
      rw [hsum] at ih2
      cases hA : combineAux dur (i + 1) p.2 rest with
      | error e =>
        rw [hA] at ih2
        cases hB : combineSpecAux dur (((List.range i).map dur).sum + dur i)
            (i + 1) p.2 rest with
        | error e2 =>
          rw [hB] at ih2
          simp only [Except.map] at ih2 ⊢
          exact ih2
        | ok q =>
          rw [hB] at ih2
          simp [Except.map] at ih2
      | ok pr =>
        rw [hA] at ih2
        cases hB : combineSpecAux dur (((List.range i).map dur).sum + dur i)
            (i + 1) p.2 rest with
        | error e2 =>
          rw [hB] at ih2
          simp [Except.map] at ih2
        | ok q =>
          rw [hB] at ih2
          simp only [Except.map, Except.ok.injEq] at ih2 ⊢
          rw [ih2]

lemma timeToSeconds_zero : timeToSeconds "00:00:00" = .ok 0 := by
  rw [show ("00:00:00" : String) = timeStr2 0 0 0 by decide,
    timeToSeconds_timeStr2 0 0 0 (by norm_num) (by norm_num) (by norm_num)]
  norm_num

lemma secondsToTime_zero : secondsToTime 0 = "00:00:00" := by
  have h := secondsToTime_natCast 0 (by norm_num)
  norm_num at h
  rw [h]
  decide

lemma secondsToTime_300 : secondsToTime 300 = "05:00:00" := by
  have h := secondsToTime_natCast 300 (by norm_num)
  norm_num at h
  rw [h]
  decide

lemma emitIndex_off0 : emitIndexLines 0 [(0, "00:00:00")] = .ok ["    INDEX 00 00:00:00"] := by
  simp only [emitIndexLines, timeToSeconds_zero, bind, Except.bind]
  rw [show (0 : ℚ) + 0 = 0 by norm_num, secondsToTime_zero]
  decide

lemma emitIndex_off300 :
    emitIndexLines 300 [(0, "00:00:00")] = .ok ["    INDEX 00 05:00:00"] := by
  simp only [emitIndexLines, timeToSeconds_zero, bind, Except.bind]
  rw [show (0 : ℚ) + 300 = 300 by norm_num, secondsToTime_300]
  decide

/-- C1: for every ordered list of CUE sheets and every duration oracle, the
combined CUE text produced by `combine_cue_sheets` equals the text of the
reference left-to-right prefix-sum algorithm of the spec (cumulative offset
starting at 0 and growing by each sheet's duration, tracks renumbered
sequentially from 01 as two-digit numbers, each index timecode re-emitted as
`toTimecode(toSeconds(t) + cumulativeOffset)`); in particular, combining two
single-track sheets whose first disc lasts 300 seconds, both indexes
`00:00:00`, renumbers the tracks `01`, `02` and emits the second index as
`05:00:00`. -/
theorem c1_combine_refines_prefix_sum :
    (∀ (dur : ℕ → ℚ) (sheets : List CueSheet),
      combineCueSheets dur sheets = combineSpecText dur sheets) ∧
    combineCueSheets (fun _ => 300)
      [⟨"p1", "d1.flac", [⟨1, none, none, [(0, "00:00:00")]⟩]⟩,
       ⟨"p2", "d2.flac", [⟨13, none, none, [(0, "00:00:00")]⟩]⟩] =
      .ok ("FILE \"d1.flac\" WAVE\n  TRACK 01 AUDIO\n    INDEX 00 00:00:00\nFILE \"d2.flac\" WAVE\n  TRACK 02 AUDIO\n    INDEX 00 05:00:00") := by
  constructor
  · intro dur sheets
    unfold combineCueSheets combineSpecText
    have h := combineAux_text_eq dur sheets 0 1
    have h0 : ((List.range 0).map dur).sum = 0 := by simp
    rw [h0] at h
    cases hA : combineAux dur 0 1 sheets with
    | error e =>
      rw [hA] at h
      cases hB : combineSpecAux dur 0 0 1 sheets with
      | error e2 =>
        rw [hB] at h
        simp only [Except.map] at h ⊢
        injection h with he
        rw [he]
      | ok q =>
        rw [hB] at h
        simp [Except.map] at h
    | ok p =>
      rw [hA] at h
      cases hB : combineSpecAux dur 0 0 1 sheets with
      | error e2 =>
        rw [hB] at h
        simp [Except.map] at h
      | ok q =>
        rw [hB] at h
        simp only [Except.map, Except.ok.injEq] at h ⊢
        rw [h]
  · unfold combineCueSheets
    simp only [combineAux, sheetLinesAux, emitTrackLines, quotedLine, bind, Except.bind,
      List.range_zero, List.range_succ, List.nil_append, List.append_nil, zero_add,
      List.map_nil, List.map_cons, List.sum_nil, List.sum_cons, add_zero,
      emitIndex_off0, emitIndex_off300]
    decide

/-- Witness for C7's general log characterization at a concrete run. -/
theorem c7_duration_probe_requeried_witness :
    ([0, 0, 1, 0, 1, 2] : List ℕ) = (List.range 4).flatMap List.range :=
  c7_duration_probe_requeried.2 (fun _ => 1)
    [⟨"p1", "a1", []⟩, ⟨"p2", "a2", []⟩, ⟨"p3", "a3", []⟩, ⟨"p4", "a4", []⟩]
    [0, 0, 1, 0, 1, 2] (by decide)
